import Mathlib

/-!
Verification of the peer-discovery subsystem of the rossip repository
(src/peer/discovery.rs, with the message codec and peer registry modelled
from the specification where their source is not part of the excerpt).

Handlers are embedded as pure functions.  Network sends and the registry
mutual-exclusion guard are recorded in an event trace; send failures are
injected through a predicate `fails : Nat → Bool` giving the outcome of the
n-th send attempted by one handler invocation (Rust's `?` on a failed send
returns early from the handler, which the embedding mirrors).
-/

/-! ## Address strings

Models `std::net::SocketAddr::from_str` restricted to IPv4 `a.b.c.d:port`
form, strictly (no leading zeros), so that every address has exactly one
string representation and `to_string` is the identity on that
representation.  An address value is represented by its canonical string. -/

/-- Splits a character list at every occurrence of `c`, keeping empty
segments, like Rust's `str::split`. -/
def splitChar (c : Char) : List Char → List (List Char)
  | [] => [[]]
  | x :: xs =>
    match splitChar c xs with
    | [] => [[x]]
    | h :: t => if x = c then [] :: h :: t else (x :: h) :: t

/-- Numeric value of a decimal digit string. -/
def digitsToNat (l : List Char) : Nat :=
  l.foldl (fun n c => 10 * n + (c.toNat - '0'.toNat)) 0

/-- A nonempty all-digit numeral without a leading zero whose value is
below `bound`. -/
def validNumChars (l : List Char) (bound : Nat) : Bool :=
  !l.isEmpty && l.all Char.isDigit && (l.length == 1 || l.headD 'x' != '0')
    && digitsToNat l < bound

/-- Strict IPv4 socket-address syntax `a.b.c.d:port`. -/
def validAddrChars (l : List Char) : Bool :=
  match splitChar ':' l with
  | [ip, port] =>
    (match splitChar '.' ip with
     | [a, b, c, d] =>
       validNumChars a 256 && validNumChars b 256 && validNumChars c 256
         && validNumChars d 256
     | _ => false) && validNumChars port 65536
  | _ => false

/-- A socket address, identified with its canonical string rendering. -/
abbrev SocketAddr := { s : String // validAddrChars s.data = true }

/-- Models `SocketAddr::from_str`: succeeds exactly on valid address
strings. -/
def SocketAddr.fromStr (s : String) : Option SocketAddr :=
  if h : validAddrChars s.data = true then some ⟨s, h⟩ else none

/-- Models `SocketAddr::to_string`: the canonical rendering. -/
def SocketAddr.toStr (a : SocketAddr) : String := a.val

theorem SocketAddr.fromStr_toStr {s : String} {a : SocketAddr}
    (h : SocketAddr.fromStr s = some a) : a.toStr = s := by
  unfold SocketAddr.fromStr at h
  split at h
  · cases h; rfl
  · cases h

theorem SocketAddr.toStr_injective {a b : SocketAddr}
    (h : a.toStr = b.toStr) : a = b := Subtype.ext h

theorem SocketAddr.fromStr_empty : SocketAddr.fromStr "" = none := by decide

example : (SocketAddr.fromStr "10.0.0.2:9487").isSome = true := by decide
example : (SocketAddr.fromStr "10.0.0:9487").isSome = false := by decide
example : (SocketAddr.fromStr "10.0.0.02:9487").isSome = false := by decide

/-! ## Message model -/

/-- Modelled from the spec: the message kinds of the tagged union in
src/message.rs, which is not part of the source excerpt (§3: Chat,
Discovery, PeerList, Heartbeat). -/
inductive MessageKind where
  | chat
  | discovery
  | peerList
  | heartbeat
deriving DecidableEq

/-- Modelled from the spec: the fields of `Message` that discovery.rs
reads (`sender`, `content`, `sender_addr`) plus the kind tag; src/message.rs
is not part of the source excerpt. -/
structure Message where
  kind : MessageKind
  sender : String
  content : String
  sender_addr : Option String
deriving DecidableEq

/-- Modelled from the spec: `Message::new_discovery(sender, local_addr)`
builds a Discovery message carrying the sender name and the
string-encoded local address. -/
def Message.new_discovery (sender : String) (local_addr : SocketAddr) : Message :=
  ⟨MessageKind.discovery, sender, "", some local_addr.toStr⟩

/-- Modelled from the spec: `Message::new_peer_list(sender, peer_addrs,
local_addr)` builds a PeerList message whose content is the comma-joined
address strings (handle_peer_list_message decodes it with `split(',')`). -/
def Message.new_peer_list (sender : String) (peer_addrs : List String)
    (local_addr : SocketAddr) : Message :=
  ⟨MessageKind.peerList, sender, String.intercalate "," peer_addrs,
    some local_addr.toStr⟩

/-! ## Peer registry

Modelled from the spec (§3, §4.2): src/peer/mod.rs (the `Peer` type,
`PeerList` registry and `SharedPeerList`) is not part of the source
excerpt; discovery.rs calls `add_or_update_peer`, `update_last_seen` and
`get_peers` on it.  The registry is a finite table keyed by address,
embedded as a list with at most one entry per address; timestamps are
abstract `Nat`s and every operation of one handler invocation happens at
one time `now`. -/

/-- Modelled from the spec: one registry entry — address (the key),
display name, last-seen timestamp (§3). -/
structure Peer where
  addr : SocketAddr
  name : String
  last_seen : Nat
deriving DecidableEq

/-- Modelled from the spec: inserts a new Peer with `last_seen = now` if
absent; if present, updates the display name and refreshes `last_seen`
(§4.2). -/
def add_or_update_peer (now : Nat) (a : SocketAddr) (name : String) :
    List Peer → List Peer
  | [] => [⟨a, name, now⟩]
  | p :: ps =>
    if p.addr = a then ⟨a, name, now⟩ :: ps
    else p :: add_or_update_peer now a name ps

/-- Modelled from the spec: refreshes `last_seen` and returns true when the
address is known; returns false and inserts nothing otherwise (§4.2). -/
def update_last_seen (now : Nat) (a : SocketAddr) :
    List Peer → Bool × List Peer
  | [] => (false, [])
  | p :: ps =>
    if p.addr = a then (true, ⟨p.addr, p.name, now⟩ :: ps)
    else
      let r := update_last_seen now a ps
      (r.1, p :: r.2)

/-- Modelled from the spec: a snapshot copy of all current peers (§4.2). -/
def get_peers (reg : List Peer) : List Peer := reg

/-- First-match lookup of a registry entry: the name and last-seen
timestamp stored under an address, if any. -/
def regLookup : List Peer → SocketAddr → Option (String × Nat)
  | [], _ => none
  | p :: ps, a => if p.addr = a then some (p.name, p.last_seen) else regLookup ps a

/-! ## Event traces -/

/-- One observable step of a handler: acquiring or releasing the registry
guard, or attempting one datagram send to a destination string. -/
inductive Event where
  | lock
  | unlock
  | send (msg : Message) (dest : String)
deriving DecidableEq

/-- The sends of a trace, in order: message and destination of every send
event. -/
def sendsOfTrace (tr : List Event) : List (Message × String) :=
  tr.filterMap fun e =>
    match e with
    | Event.send m d => some (m, d)
    | _ => none

/-- The destinations of a trace's sends, in order. -/
def sendDests (tr : List Event) : List String :=
  (sendsOfTrace tr).map Prod.snd

/-- True when some send event of the trace happens while the registry
guard is held (lock depth positive). -/
def sendWhileLockedAux : Nat → List Event → Bool
  | _, [] => false
  | depth, Event.lock :: rest => sendWhileLockedAux (depth + 1) rest
  | depth, Event.unlock :: rest => sendWhileLockedAux (depth - 1) rest
  | depth, Event.send _ _ :: rest =>
    (depth != 0) || sendWhileLockedAux depth rest

/-- True when the trace contains a send performed under the registry
guard. -/
def sendWhileLocked (tr : List Event) : Bool := sendWhileLockedAux 0 tr

/-- Result of one handler invocation: the `std::io::Result` outcome
(`ok = false` when the handler returned an error through `?`), the registry
contents after the handler, and the event trace. -/
structure HandlerOut where
  ok : Bool
  reg : List Peer
  trace : List Event
deriving DecidableEq

/-- The sends a handler attempted, in order. -/
def HandlerOut.sends (o : HandlerOut) : List (Message × String) :=
  sendsOfTrace o.trace

/-! ## Discovery protocol (src/peer/discovery.rs) -/

/-- The `BROADCAST_ADDR` constant of discovery.rs. -/
def BROADCAST_ADDR : String := "255.255.255.255"

/-- The per-port send loop of `send_discovery_message`: sends `dmsg` to
`255.255.255.255:port` for each configured port; `?` on a failed send
returns the error at once, so the remaining ports are not attempted. -/
def sendLoop (fails : Nat → Bool) (dmsg : Message) :
    List Nat → Nat → Bool × List Event
  | [], _ => (true, [])
  | port :: rest, k =>
    let dest := BROADCAST_ADDR ++ ":" ++ toString port
    if fails k then (false, [Event.send dmsg dest])
    else
      let r := sendLoop fails dmsg rest (k + 1)
      (r.1, Event.send dmsg dest :: r.2)

/-- Embeds `send_discovery_message`: builds one Discovery message from the
username and local address and sends it to the broadcast address on every
configured port. -/
def send_discovery_message (fails : Nat → Bool) (username : String)
    (local_addr : SocketAddr) (broadcast_ports : List Nat) : Bool × List Event :=
  let discovery_msg := Message.new_discovery username local_addr
  sendLoop fails discovery_msg broadcast_ports 0

/-- Embeds `handle_discovery_message`.  When the message carries a
parseable `sender_addr`: lock the registry, `add_or_update_peer` the
sender, send a Discovery response to the sender's address string, then —
still under the guard, which Rust drops only at scope exit — snapshot
`get_peers` and, if non-empty, send a PeerList of their string-encoded
addresses to the sender.  On a send error `?` returns early (the guard is
dropped by scope exit, recorded as the final unlock). -/
def handle_discovery_message (fails : Nat → Bool) (msg : Message)
    (reg : List Peer) (username : String) (local_addr : SocketAddr)
    (now : Nat) : HandlerOut :=
  match msg.sender_addr with
  | some addr_str =>
    match SocketAddr.fromStr addr_str with
    | some addr =>
      let reg1 := add_or_update_peer now addr msg.sender reg
      let response := Message.new_discovery username local_addr
      if fails 0 then
        ⟨false, reg1, [Event.lock, Event.send response addr_str, Event.unlock]⟩
      else
        let peers := get_peers reg1
        if peers.isEmpty then
          ⟨true, reg1, [Event.lock, Event.send response addr_str, Event.unlock]⟩
        else
          let peer_addrs := peers.map fun p => p.addr.toStr
          let peer_list_msg := Message.new_peer_list username peer_addrs local_addr
          ⟨!fails 1, reg1,
            [Event.lock, Event.send response addr_str,
              Event.send peer_list_msg addr_str, Event.unlock]⟩
    | none => ⟨true, reg, []⟩
  | none => ⟨true, reg, []⟩

/-- Embeds Rust's `str::split(',')` on the message content (splitting a
string at every comma, keeping empty segments). -/
def splitComma (s : String) : List String :=
  (splitChar ',' s.data).map String.mk

/-- The per-entry loop of `handle_peer_list_message`, run under the
registry guard.  `k` counts the sends already attempted in this handler
invocation, `np` is the `new_peers` flag.  Returns the outcome, the
registry, the send events and the final flag; a failed send returns the
error at once (`?`), leaving the remaining entries unprocessed. -/
def peerListLoop (fails : Nat → Bool) (username : String)
    (local_addr : SocketAddr) (now : Nat) :
    List String → List Peer → Nat → Bool →
      Bool × List Peer × List Event × Bool
  | [], reg, _, np => (true, reg, [], np)
  | addr_str :: rest, reg, k, np =>
    if addr_str = "" then
      peerListLoop fails username local_addr now rest reg k np
    else
      match SocketAddr.fromStr addr_str with
      | none => peerListLoop fails username local_addr now rest reg k np
      | some addr =>
        if addr = local_addr then
          peerListLoop fails username local_addr now rest reg k np
        else
          let r := update_last_seen now addr reg
          let is_new := !r.1
          if is_new then
            let reg2 := add_or_update_peer now addr addr.toStr r.2
            let discovery_msg := Message.new_discovery username local_addr
            if fails k then
              (false, reg2, [Event.send discovery_msg addr.toStr], true)
            else
              let rr := peerListLoop fails username local_addr now rest reg2 (k + 1) true
              (rr.1, rr.2.1, Event.send discovery_msg addr.toStr :: rr.2.2.1, rr.2.2.2)
          else
            peerListLoop fails username local_addr now rest r.2 k np

/-- Embeds `handle_peer_list_message`: split the content on commas, lock
the registry, then for each entry skip empty strings, unparseable strings
and the local address; `update_last_seen` decides new-vs-known, a new
address is registered under its address string as placeholder name and a
Discovery message is sent to it (under the guard, dropped at exit — also
on an early error return). -/
def handle_peer_list_message (fails : Nat → Bool) (msg : Message)
    (reg : List Peer) (username : String) (local_addr : SocketAddr)
    (now : Nat) : HandlerOut :=
  let peer_addrs := splitComma msg.content
  let r := peerListLoop fails username local_addr now peer_addrs reg 0 false
  ⟨r.1, r.2.1, Event.lock :: r.2.2.1 ++ [Event.unlock]⟩

/-! ## Registry lemmas -/

theorem regLookup_add (now : Nat) (a : SocketAddr) (n : String)
    (reg : List Peer) (b : SocketAddr) :
    regLookup (add_or_update_peer now a n reg) b
      = if b = a then some (n, now) else regLookup reg b := by
  induction reg with
  | nil =>
    simp only [add_or_update_peer, regLookup]
    by_cases h : b = a
    · simp [h]
    · have hab : ¬ a = b := fun hq => h hq.symm
      simp [h, hab]
  | cons p ps ih =>
    simp only [add_or_update_peer]
    by_cases hp : p.addr = a
    · by_cases hb : b = a
      · subst hb; simp [regLookup, hp]
      · have hab : ¬ a = b := fun hq => hb hq.symm
        simp [regLookup, hb, hp, hab]
    · by_cases hb : p.addr = b
      · have hba : ¬ b = a := fun h => hp (hb.trans h)
        simp [regLookup, hp, hb, hba]
      · simp [regLookup, hp, hb, ih]

theorem update_fst (now : Nat) (a : SocketAddr) (reg : List Peer) :
    (update_last_seen now a reg).1 = (regLookup reg a).isSome := by
  induction reg with
  | nil => simp [update_last_seen, regLookup]
  | cons p ps ih =>
    simp only [update_last_seen, regLookup]
    by_cases hp : p.addr = a
    · simp [hp]
    · simp [hp, ih]

theorem update_lookup (now : Nat) (a : SocketAddr) (reg : List Peer)
    (b : SocketAddr) :
    regLookup (update_last_seen now a reg).2 b
      = if b = a then (regLookup reg a).map (fun q => (q.1, now))
        else regLookup reg b := by
  induction reg with
  | nil => simp [update_last_seen, regLookup]
  | cons p ps ih =>
    simp only [update_last_seen, regLookup]
    by_cases hp : p.addr = a
    · by_cases hb : b = a
      · subst hb; simp [regLookup, hp]
      · have hab : ¬ a = b := fun hq => hb hq.symm
        have hpb : ¬ p.addr = b := fun h => hb (h.symm.trans hp)
        simp [regLookup, hp, hb, hpb, hab]
    · by_cases hb : p.addr = b
      · have hba : ¬ b = a := fun h => hp (hb.trans h)
        simp [regLookup, hb, hba]
      · simp [regLookup, hp, hb, ih]

theorem add_ne_nil (now : Nat) (a : SocketAddr) (n : String)
    (reg : List Peer) : (add_or_update_peer now a n reg).isEmpty = false := by
  cases reg with
  | nil => simp [add_or_update_peer]
  | cons p ps =>
    simp only [add_or_update_peer]
    by_cases hp : p.addr = a <;> simp [hp]

theorem mem_add_of_mem (now : Nat) (a : SocketAddr) (n : String)
    {reg : List Peer} {p : Peer} (hp : p ∈ reg) :
    ∃ q ∈ add_or_update_peer now a n reg, q.addr = p.addr := by
  induction reg with
  | nil => cases hp
  | cons x xs ih =>
    simp only [add_or_update_peer]
    rcases List.mem_cons.mp hp with rfl | hmem
    · by_cases hx : p.addr = a
      · exact ⟨⟨a, n, now⟩, by simp [hx]⟩
      · exact ⟨p, by simp [hx]⟩
    · by_cases hx : x.addr = a
      · exact ⟨p, by simp [hx, hmem]⟩
      · rcases ih hmem with ⟨q, hq, hqa⟩
        exact ⟨q, by simp [hx, hq], hqa⟩

theorem self_mem_add (now : Nat) (a : SocketAddr) (n : String)
    (reg : List Peer) :
    ∃ q ∈ add_or_update_peer now a n reg, q.addr = a := by
  induction reg with
  | nil => exact ⟨⟨a, n, now⟩, by simp [add_or_update_peer]⟩
  | cons x xs ih =>
    simp only [add_or_update_peer]
    by_cases hx : x.addr = a
    · exact ⟨⟨a, n, now⟩, by simp [hx]⟩
    · rcases ih with ⟨q, hq, hqa⟩
      exact ⟨q, by simp [hx, hq], hqa⟩

theorem regLookup_none_of_add {now : Nat} {a : SocketAddr} {n : String}
    {reg : List Peer} {b : SocketAddr}
    (h : regLookup (add_or_update_peer now a n reg) b = none) :
    regLookup reg b = none := by
  rw [regLookup_add] at h
  by_cases hb : b = a
  · simp [hb] at h
  · simpa [hb] using h

theorem regLookup_none_of_update {now : Nat} {a : SocketAddr}
    {reg : List Peer} {b : SocketAddr}
    (h : regLookup (update_last_seen now a reg).2 b = none) :
    regLookup reg b = none := by
  rw [update_lookup] at h
  by_cases hb : b = a
  · subst hb
    cases hr : regLookup reg b with
    | none => rfl
    | some q => simp [hr] at h
  · simpa [hb] using h

/-! ## PeerList-loop characterization -/

/-- The effect of one PeerList round on one registry slot: a known entry
keeps its name with `last_seen` refreshed, an unknown address is entered
under its address string as placeholder name. -/
def touch (b : SocketAddr) (now : Nat) : Option (String × Nat) → Option (String × Nat)
  | some q => some (q.1, now)
  | none => some (b.toStr, now)

/-- Whether some entry of the list parses to the (non-local) address `a`. -/
def hitsB (la : SocketAddr) (entries : List String) (a : SocketAddr) : Bool :=
  decide (¬ a = la) && entries.any (fun s => decide (SocketAddr.fromStr s = some a))

theorem hitsB_nil (la : SocketAddr) (a : SocketAddr) : hitsB la [] a = false := by
  simp [hitsB]

theorem hitsB_cons (la : SocketAddr) (s : String) (rest : List String)
    (a : SocketAddr) :
    hitsB la (s :: rest) a
      = ((decide (¬ a = la) && decide (SocketAddr.fromStr s = some a))
          || hitsB la rest a) := by
  simp [hitsB, List.any_cons, Bool.and_or_distrib_left]

theorem hitsB_cons_skip {la : SocketAddr} {s : String} (rest : List String)
    {a : SocketAddr} (h : ¬ SocketAddr.fromStr s = some a) :
    hitsB la (s :: rest) a = hitsB la rest a := by
  rw [hitsB_cons]
  simp [h]

theorem hitsB_local (la : SocketAddr) (entries : List String) :
    hitsB la entries la = false := by
  simp [hitsB]

theorem touch_touch (b : SocketAddr) (now : Nat) (o : Option (String × Nat)) :
    touch b now (touch b now o) = touch b now o := by
  cases o <;> simp [touch]

theorem loop_nil (fails : Nat → Bool) (u : String) (la : SocketAddr)
    (now : Nat) (reg : List Peer) (k : Nat) (np : Bool) :
    peerListLoop fails u la now [] reg k np = (true, reg, [], np) := rfl

theorem loop_cons_empty (fails : Nat → Bool) (u : String) (la : SocketAddr)
    (now : Nat) (rest : List String) (reg : List Peer) (k : Nat) (np : Bool) :
    peerListLoop fails u la now ("" :: rest) reg k np
      = peerListLoop fails u la now rest reg k np := by
  simp [peerListLoop]

theorem loop_cons_noparse {s : String} (hs : ¬ s = "")
    (hp : SocketAddr.fromStr s = none) (fails : Nat → Bool) (u : String)
    (la : SocketAddr) (now : Nat) (rest : List String) (reg : List Peer)
    (k : Nat) (np : Bool) :
    peerListLoop fails u la now (s :: rest) reg k np
      = peerListLoop fails u la now rest reg k np := by
  simp [peerListLoop, hs, hp]

theorem loop_cons_local {s : String} {la : SocketAddr} (hs : ¬ s = "")
    (hp : SocketAddr.fromStr s = some la) (fails : Nat → Bool) (u : String)
    (now : Nat) (rest : List String) (reg : List Peer) (k : Nat) (np : Bool) :
    peerListLoop fails u la now (s :: rest) reg k np
      = peerListLoop fails u la now rest reg k np := by
  simp [peerListLoop, hs, hp]

theorem loop_cons_known {s : String} {la addr : SocketAddr} {reg : List Peer}
    {now : Nat} (hs : ¬ s = "") (hp : SocketAddr.fromStr s = some addr)
    (hl : ¬ addr = la) (hk : (update_last_seen now addr reg).1 = true)
    (fails : Nat → Bool) (u : String) (rest : List String) (k : Nat) (np : Bool) :
    peerListLoop fails u la now (s :: rest) reg k np
      = peerListLoop fails u la now rest (update_last_seen now addr reg).2 k np := by
  simp [peerListLoop, hs, hp, hl, hk]

theorem loop_cons_new {s : String} {la addr : SocketAddr} {reg : List Peer}
    {now : Nat} {fails : Nat → Bool} {k : Nat} (hs : ¬ s = "")
    (hp : SocketAddr.fromStr s = some addr) (hl : ¬ addr = la)
    (hk : (update_last_seen now addr reg).1 = false) (hf : fails k = false)
    (u : String) (rest : List String) (np : Bool) :
    peerListLoop fails u la now (s :: rest) reg k np
      = ((peerListLoop fails u la now rest
            (add_or_update_peer now addr addr.toStr (update_last_seen now addr reg).2)
            (k + 1) true).1,
         (peerListLoop fails u la now rest
            (add_or_update_peer now addr addr.toStr (update_last_seen now addr reg).2)
            (k + 1) true).2.1,
         Event.send (Message.new_discovery u la) addr.toStr ::
           (peerListLoop fails u la now rest
              (add_or_update_peer now addr addr.toStr (update_last_seen now addr reg).2)
              (k + 1) true).2.2.1,
         (peerListLoop fails u la now rest
            (add_or_update_peer now addr addr.toStr (update_last_seen now addr reg).2)
            (k + 1) true).2.2.2) := by
  simp [peerListLoop, hs, hp, hl, hk, hf]

theorem loop_cons_new_fail {s : String} {la addr : SocketAddr} {reg : List Peer}
    {now : Nat} {fails : Nat → Bool} {k : Nat} (hs : ¬ s = "")
    (hp : SocketAddr.fromStr s = some addr) (hl : ¬ addr = la)
    (hk : (update_last_seen now addr reg).1 = false) (hf : fails k = true)
    (u : String) (rest : List String) (np : Bool) :
    peerListLoop fails u la now (s :: rest) reg k np
      = (false, add_or_update_peer now addr addr.toStr (update_last_seen now addr reg).2,
          [Event.send (Message.new_discovery u la) addr.toStr], true) := by
  simp [peerListLoop, hs, hp, hl, hk, hf]

theorem regLookup_known_update {now : Nat} {addr : SocketAddr} {reg : List Peer}
    (hk : (update_last_seen now addr reg).1 = true) :
    regLookup (update_last_seen now addr reg).2 addr
      = touch addr now (regLookup reg addr) := by
  rw [update_fst] at hk
  cases h : regLookup reg addr with
  | none => rw [h] at hk; simp at hk
  | some q =>
    rw [update_lookup]
    simp [h, touch]

theorem regLookup_new_add {now : Nat} {addr : SocketAddr} {reg : List Peer}
    (hk : (update_last_seen now addr reg).1 = false) :
    regLookup (add_or_update_peer now addr addr.toStr (update_last_seen now addr reg).2) addr
      = touch addr now (regLookup reg addr) := by
  rw [update_fst] at hk
  cases h : regLookup reg addr with
  | none => rw [regLookup_add]; simp [touch]
  | some q => rw [h] at hk; simp at hk

theorem regLookup_known_update_other {now : Nat} {addr b : SocketAddr}
    {reg : List Peer} (hb : ¬ b = addr) :
    regLookup (update_last_seen now addr reg).2 b = regLookup reg b := by
  rw [update_lookup]; simp [hb]

theorem regLookup_new_add_other {now : Nat} {addr b : SocketAddr}
    {reg : List Peer} (hb : ¬ b = addr) :
    regLookup (add_or_update_peer now addr addr.toStr (update_last_seen now addr reg).2) b
      = regLookup reg b := by
  rw [regLookup_add]
  simp only [if_neg hb]
  rw [update_lookup]; simp [hb]

theorem loop_lookup (u : String) (la : SocketAddr) (now : Nat)
    (entries : List String) :
    ∀ (reg : List Peer) (k : Nat) (np : Bool) (a : SocketAddr),
    regLookup (peerListLoop (fun _ => false) u la now entries reg k np).2.1 a
      = if hitsB la entries a then touch a now (regLookup reg a)
        else regLookup reg a := by
  induction entries with
  | nil => intro reg k np a; rw [loop_nil, hitsB_nil]; simp
  | cons s rest ih =>
    intro reg k np a
    by_cases hs : s = ""
    · subst hs
      rw [loop_cons_empty, ih,
        hitsB_cons_skip rest (by rw [SocketAddr.fromStr_empty]; simp)]
    · cases hparse : SocketAddr.fromStr s with
      | none =>
        rw [loop_cons_noparse hs hparse, ih,
          hitsB_cons_skip rest (by rw [hparse]; simp)]
      | some addr =>
        by_cases hloc : addr = la
        · subst hloc
          rw [loop_cons_local hs hparse, ih]
          by_cases ha : a = addr
          · subst ha; rw [hitsB_local, hitsB_local]
          · rw [hitsB_cons_skip rest (by
              rw [hparse]
              exact fun h => ha (Option.some_injective _ h).symm)]
        · have hparse_a : ∀ {b : SocketAddr}, ¬ b = addr →
              ¬ SocketAddr.fromStr s = some b := by
            intro b hb h
            rw [hparse] at h
            exact hb (Option.some_injective _ h).symm
          cases hknown : (update_last_seen now addr reg).1 with
          | true =>
            rw [loop_cons_known hs hparse hloc hknown, ih]
            by_cases ha : a = addr
            · subst ha
              have hhit : hitsB la (s :: rest) a = true := by
                rw [hitsB_cons]
                simp [hparse, fun h : a = la => hloc h]
              rw [hhit, if_pos rfl, regLookup_known_update hknown]
              by_cases hrest : hitsB la rest a = true
              · rw [if_pos hrest, touch_touch]
              · rw [if_neg hrest]
            · rw [regLookup_known_update_other ha,
                hitsB_cons_skip rest (hparse_a ha)]
          | false =>
            rw [loop_cons_new hs hparse hloc hknown rfl, ih]
            by_cases ha : a = addr
            · subst ha
              have hhit : hitsB la (s :: rest) a = true := by
                rw [hitsB_cons]
                simp [hparse, fun h : a = la => hloc h]
              rw [hhit, if_pos rfl, regLookup_new_add hknown]
              by_cases hrest : hitsB la rest a = true
              · rw [if_pos hrest, touch_touch]
              · rw [if_neg hrest]
            · rw [regLookup_new_add_other ha,
                hitsB_cons_skip rest (hparse_a ha)]

theorem loop_local_lookup (fails : Nat → Bool) (u : String) (la : SocketAddr)
    (now : Nat) (entries : List String) :
    ∀ (reg : List Peer) (k : Nat) (np : Bool),
    regLookup (peerListLoop fails u la now entries reg k np).2.1 la
      = regLookup reg la := by
  induction entries with
  | nil => intro reg k np; rw [loop_nil]
  | cons s rest ih =>
    intro reg k np
    by_cases hs : s = ""
    · subst hs; rw [loop_cons_empty, ih]
    · cases hparse : SocketAddr.fromStr s with
      | none => rw [loop_cons_noparse hs hparse, ih]
      | some addr =>
        by_cases hloc : addr = la
        · subst hloc; rw [loop_cons_local hs hparse, ih]
        · have hne : ¬ la = addr := fun h => hloc h.symm
          cases hknown : (update_last_seen now addr reg).1 with
          | true =>
            rw [loop_cons_known hs hparse hloc hknown, ih,
              regLookup_known_update_other hne]
          | false =>
            cases hf : fails k with
            | true =>
              rw [loop_cons_new_fail hs hparse hloc hknown hf]
              exact regLookup_new_add_other hne
            | false =>
              rw [loop_cons_new hs hparse hloc hknown hf]
              simp only []
              rw [ih, regLookup_new_add_other hne]

theorem sendsOfTrace_nil : sendsOfTrace [] = [] := rfl

theorem sendsOfTrace_cons_send (m : Message) (d : String) (tr : List Event) :
    sendsOfTrace (Event.send m d :: tr) = (m, d) :: sendsOfTrace tr := by
  simp [sendsOfTrace]

theorem sendsOfTrace_cons_lock (tr : List Event) :
    sendsOfTrace (Event.lock :: tr) = sendsOfTrace tr := by
  simp [sendsOfTrace]

theorem sendsOfTrace_append (tr tr' : List Event) :
    sendsOfTrace (tr ++ tr') = sendsOfTrace tr ++ sendsOfTrace tr' := by
  simp [sendsOfTrace]

theorem sendsOfTrace_unlock_singleton :
    sendsOfTrace [Event.unlock] = [] := rfl

theorem loop_sends_characterize (fails : Nat → Bool) (u : String)
    (la : SocketAddr) (now : Nat) (entries : List String) :
    ∀ (reg : List Peer) (k : Nat) (np : Bool) (m : Message) (d : String),
    (m, d) ∈ sendsOfTrace (peerListLoop fails u la now entries reg k np).2.2.1 →
    ∃ b : SocketAddr, (∃ s ∈ entries, SocketAddr.fromStr s = some b)
      ∧ ¬ b = la ∧ regLookup reg b = none ∧ d = b.toStr
      ∧ m = Message.new_discovery u la := by
  induction entries with
  | nil => intro reg k np m d h; rw [loop_nil] at h; simp [sendsOfTrace] at h
  | cons s rest ih =>
    intro reg k np m d h
    by_cases hs : s = ""
    · subst hs
      rw [loop_cons_empty] at h
      rcases ih reg k np m d h with ⟨b, ⟨s', hs', hb⟩, hrest⟩
      exact ⟨b, ⟨s', List.mem_cons_of_mem _ hs', hb⟩, hrest⟩
    · cases hparse : SocketAddr.fromStr s with
      | none =>
        rw [loop_cons_noparse hs hparse] at h
        rcases ih reg k np m d h with ⟨b, ⟨s', hs', hb⟩, hrest⟩
        exact ⟨b, ⟨s', List.mem_cons_of_mem _ hs', hb⟩, hrest⟩
      | some addr =>
        by_cases hloc : addr = la
        · subst hloc
          rw [loop_cons_local hs hparse] at h
          rcases ih reg k np m d h with ⟨b, ⟨s', hs', hb⟩, hrest⟩
          exact ⟨b, ⟨s', List.mem_cons_of_mem _ hs', hb⟩, hrest⟩
        · cases hknown : (update_last_seen now addr reg).1 with
          | true =>
            rw [loop_cons_known hs hparse hloc hknown] at h
            rcases ih _ k np m d h with ⟨b, ⟨s', hs', hb⟩, hbla, hbnone, hrest⟩
            refine ⟨b, ⟨s', List.mem_cons_of_mem _ hs', hb⟩, hbla, ?_, hrest⟩
            by_cases hba : b = addr
            · subst hba
              rw [regLookup_known_update hknown] at hbnone
              cases hq : regLookup reg b <;> simp [hq, touch] at hbnone
            · rwa [regLookup_known_update_other hba] at hbnone
          | false =>
            have hregnone : regLookup reg addr = none := by
              rw [update_fst] at hknown
              cases hq : regLookup reg addr with
              | none => rfl
              | some q => rw [hq] at hknown; simp at hknown
            cases hf : fails k with
            | true =>
              rw [loop_cons_new_fail hs hparse hloc hknown hf] at h
              have hmd : m = Message.new_discovery u la ∧ d = addr.toStr := by
                simpa [sendsOfTrace] using h
              exact ⟨addr, ⟨s, List.mem_cons_self _ _, hparse⟩, hloc, hregnone,
                hmd.2, hmd.1⟩
            | false =>
              rw [loop_cons_new hs hparse hloc hknown hf] at h
              rw [show ((peerListLoop fails u la now rest
                    (add_or_update_peer now addr addr.toStr (update_last_seen now addr reg).2)
                    (k + 1) true).1,
                  (peerListLoop fails u la now rest
                    (add_or_update_peer now addr addr.toStr (update_last_seen now addr reg).2)
                    (k + 1) true).2.1,
                  Event.send (Message.new_discovery u la) addr.toStr ::
                    (peerListLoop fails u la now rest
                      (add_or_update_peer now addr addr.toStr (update_last_seen now addr reg).2)
                      (k + 1) true).2.2.1,
                  (peerListLoop fails u la now rest
                    (add_or_update_peer now addr addr.toStr (update_last_seen now addr reg).2)
                    (k + 1) true).2.2.2).2.2.1
                  = Event.send (Message.new_discovery u la) addr.toStr ::
                    (peerListLoop fails u la now rest
                      (add_or_update_peer now addr addr.toStr (update_last_seen now addr reg).2)
                      (k + 1) true).2.2.1 from rfl,
                sendsOfTrace_cons_send] at h
              rcases List.mem_cons.mp h with hmd | htail
              · have hm : m = Message.new_discovery u la := congrArg Prod.fst hmd
                have hd : d = addr.toStr := congrArg Prod.snd hmd
                exact ⟨addr, ⟨s, List.mem_cons_self _ _, hparse⟩, hloc, hregnone,
                  hd, hm⟩
              · rcases ih _ (k + 1) true m d htail
                  with ⟨b, ⟨s', hs', hb⟩, hbla, hbnone, hrest⟩
                refine ⟨b, ⟨s', List.mem_cons_of_mem _ hs', hb⟩, hbla, ?_, hrest⟩
                by_cases hba : b = addr
                · subst hba
                  rw [regLookup_new_add hknown] at hbnone
                  cases hq : regLookup reg b <;> simp [hq, touch] at hbnone
                · rwa [regLookup_new_add_other hba] at hbnone

theorem loop_send_new (u : String) (la : SocketAddr) (now : Nat)
    (entries : List String) :
    ∀ (reg : List Peer) (k : Nat) (np : Bool) (s : String) (a : SocketAddr),
    s ∈ entries → SocketAddr.fromStr s = some a → ¬ a = la →
    regLookup reg a = none →
    (Message.new_discovery u la, a.toStr) ∈
      sendsOfTrace (peerListLoop (fun _ => false) u la now entries reg k np).2.2.1 := by
  induction entries with
  | nil => intro reg k np s a hmem; cases hmem
  | cons e rest ih =>
    intro reg k np s a hmem hsa hala hnone
    by_cases he : e = ""
    · subst he
      rw [loop_cons_empty]
      rcases List.mem_cons.mp hmem with rfl | hmem'
      · rw [SocketAddr.fromStr_empty] at hsa; cases hsa
      · exact ih reg k np s a hmem' hsa hala hnone
    · cases hparse : SocketAddr.fromStr e with
      | none =>
        rw [loop_cons_noparse he hparse]
        rcases List.mem_cons.mp hmem with rfl | hmem'
        · rw [hparse] at hsa; cases hsa
        · exact ih reg k np s a hmem' hsa hala hnone
      | some addr =>
        by_cases hloc : addr = la
        · subst hloc
          rw [loop_cons_local he hparse]
          rcases List.mem_cons.mp hmem with rfl | hmem'
          · rw [hparse] at hsa
            exact absurd (Option.some_injective _ hsa).symm hala
          · exact ih reg k np s a hmem' hsa hala hnone
        · cases hknown : (update_last_seen now addr reg).1 with
          | true =>
            have haddr_some : ¬ regLookup reg addr = none := by
              rw [update_fst] at hknown
              intro hq; rw [hq] at hknown; simp at hknown
            have haa : ¬ a = addr := fun h => haddr_some (h ▸ hnone)
            rw [loop_cons_known he hparse hloc hknown]
            rcases List.mem_cons.mp hmem with rfl | hmem'
            · rw [hparse] at hsa
              exact absurd (Option.some_injective _ hsa).symm haa
            · exact ih _ k np s a hmem' hsa hala
                (by rwa [regLookup_known_update_other haa])
          | false =>
            rw [loop_cons_new he hparse hloc hknown rfl]
            show (Message.new_discovery u la, a.toStr) ∈
              sendsOfTrace (Event.send (Message.new_discovery u la) addr.toStr ::
                (peerListLoop (fun _ => false) u la now rest
                  (add_or_update_peer now addr addr.toStr
                    (update_last_seen now addr reg).2) (k + 1) true).2.2.1)
            rw [sendsOfTrace_cons_send]
            by_cases haa : a = addr
            · subst haa
              exact List.mem_cons_self _ _
            · rcases List.mem_cons.mp hmem with rfl | hmem'
              · rw [hparse] at hsa
                exact absurd (Option.some_injective _ hsa).symm haa
              · exact List.mem_cons_of_mem _
                  (ih _ (k + 1) true s a hmem' hsa hala
                    (by rwa [regLookup_new_add_other haa]))

theorem loop_events_send (fails : Nat → Bool) (u : String) (la : SocketAddr)
    (now : Nat) (entries : List String) :
    ∀ (reg : List Peer) (k : Nat) (np : Bool) (e : Event),
    e ∈ (peerListLoop fails u la now entries reg k np).2.2.1 →
    ∃ m d, e = Event.send m d := by
  induction entries with
  | nil => intro reg k np e h; rw [loop_nil] at h; cases h
  | cons s rest ih =>
    intro reg k np e h
    by_cases hs : s = ""
    · subst hs; rw [loop_cons_empty] at h; exact ih reg k np e h
    · cases hparse : SocketAddr.fromStr s with
      | none =>
        rw [loop_cons_noparse hs hparse] at h; exact ih reg k np e h
      | some addr =>
        by_cases hloc : addr = la
        · subst hloc
          rw [loop_cons_local hs hparse] at h; exact ih reg k np e h
        · cases hknown : (update_last_seen now addr reg).1 with
          | true =>
            rw [loop_cons_known hs hparse hloc hknown] at h
            exact ih _ k np e h
          | false =>
            cases hf : fails k with
            | true =>
              rw [loop_cons_new_fail hs hparse hloc hknown hf] at h
              rcases List.mem_singleton.mp h with rfl
              exact ⟨_, _, rfl⟩
            | false =>
              rw [loop_cons_new hs hparse hloc hknown hf] at h
              have h' : e = Event.send (Message.new_discovery u la) addr.toStr
                  ∨ e ∈ (peerListLoop fails u la now rest
                      (add_or_update_peer now addr addr.toStr
                        (update_last_seen now addr reg).2) (k + 1) true).2.2.1 :=
                List.mem_cons.mp h
              rcases h' with rfl | htail
              · exact ⟨_, _, rfl⟩
              · exact ih _ (k + 1) true e htail

theorem loop_all_skip (fails : Nat → Bool) (u : String) (la : SocketAddr)
    (now : Nat) (entries : List String)
    (hall : ∀ s ∈ entries, SocketAddr.fromStr s = none) :
    ∀ (reg : List Peer) (k : Nat) (np : Bool),
    peerListLoop fails u la now entries reg k np = (true, reg, [], np) := by
  induction entries with
  | nil => intro reg k np; exact loop_nil fails u la now reg k np
  | cons s rest ih =>
    intro reg k np
    have hrest : ∀ s' ∈ rest, SocketAddr.fromStr s' = none :=
      fun s' hs' => hall s' (List.mem_cons_of_mem _ hs')
    by_cases hs : s = ""
    · subst hs
      rw [loop_cons_empty]
      exact ih hrest reg k np
    · rw [loop_cons_noparse hs (hall s (List.mem_cons_self _ _))]
      exact ih hrest reg k np

/-! ## Handler-level lemmas -/

theorem hplm_ok (fails : Nat → Bool) (msg : Message) (reg : List Peer)
    (username : String) (la : SocketAddr) (now : Nat) :
    (handle_peer_list_message fails msg reg username la now).ok
      = (peerListLoop fails username la now (splitComma msg.content) reg 0 false).1 := rfl

theorem hplm_reg (fails : Nat → Bool) (msg : Message) (reg : List Peer)
    (username : String) (la : SocketAddr) (now : Nat) :
    (handle_peer_list_message fails msg reg username la now).reg
      = (peerListLoop fails username la now (splitComma msg.content) reg 0 false).2.1 := rfl

theorem hplm_trace (fails : Nat → Bool) (msg : Message) (reg : List Peer)
    (username : String) (la : SocketAddr) (now : Nat) :
    (handle_peer_list_message fails msg reg username la now).trace
      = Event.lock ::
          (peerListLoop fails username la now (splitComma msg.content) reg 0 false).2.2.1
          ++ [Event.unlock] := rfl

theorem hplm_sends (fails : Nat → Bool) (msg : Message) (reg : List Peer)
    (username : String) (la : SocketAddr) (now : Nat) :
    (handle_peer_list_message fails msg reg username la now).sends
      = sendsOfTrace
          (peerListLoop fails username la now (splitComma msg.content) reg 0 false).2.2.1 := by
  rw [HandlerOut.sends, hplm_trace, sendsOfTrace_append, sendsOfTrace_cons_lock,
    sendsOfTrace_unlock_singleton, List.append_nil]

theorem hdm_eq {fails : Nat → Bool} (msg : Message) (reg : List Peer)
    (username : String) (la : SocketAddr) (now : Nat) {s : String}
    {addr : SocketAddr} (hmsg : msg.sender_addr = some s)
    (hparse : SocketAddr.fromStr s = some addr) (hf0 : fails 0 = false) :
    handle_discovery_message fails msg reg username la now
      = ⟨!fails 1, add_or_update_peer now addr msg.sender reg,
          [Event.lock, Event.send (Message.new_discovery username la) s,
           Event.send (Message.new_peer_list username
             ((add_or_update_peer now addr msg.sender reg).map fun p => p.addr.toStr) la) s,
           Event.unlock]⟩ := by
  simp [handle_discovery_message, hmsg, hparse, hf0, get_peers, add_ne_nil]

theorem hdm_eq_fail0 {fails : Nat → Bool} (msg : Message) (reg : List Peer)
    (username : String) (la : SocketAddr) (now : Nat) {s : String}
    {addr : SocketAddr} (hmsg : msg.sender_addr = some s)
    (hparse : SocketAddr.fromStr s = some addr) (hf0 : fails 0 = true) :
    handle_discovery_message fails msg reg username la now
      = ⟨false, add_or_update_peer now addr msg.sender reg,
          [Event.lock, Event.send (Message.new_discovery username la) s,
           Event.unlock]⟩ := by
  simp [handle_discovery_message, hmsg, hparse, hf0]

theorem any_perm {α : Type} {l1 l2 : List α} (h : List.Perm l1 l2)
    (f : α → Bool) : l1.any f = l2.any f := by
  cases h2 : l2.any f with
  | true =>
    rcases List.any_eq_true.mp h2 with ⟨x, hx, hfx⟩
    exact List.any_eq_true.mpr ⟨x, h.mem_iff.mpr hx, hfx⟩
  | false =>
    cases h1 : l1.any f with
    | false => rfl
    | true =>
      rcases List.any_eq_true.mp h1 with ⟨x, hx, hfx⟩
      have hc := List.any_eq_true.mpr ⟨x, h.mem_iff.mp hx, hfx⟩
      rw [h2] at hc; cases hc

theorem hitsB_perm {l1 l2 : List String} (h : List.Perm l1 l2)
    (la a : SocketAddr) : hitsB la l1 a = hitsB la l2 a := by
  unfold hitsB
  rw [any_perm h]

theorem sendDests_cons_send (m : Message) (d : String) (tr : List Event) :
    sendDests (Event.send m d :: tr) = d :: sendDests tr := by
  simp [sendDests, sendsOfTrace]

theorem sendLoop_ok (dmsg : Message) (ports : List Nat) :
    ∀ k : Nat, (sendLoop (fun _ => false) dmsg ports k).1 = true
      ∧ sendDests (sendLoop (fun _ => false) dmsg ports k).2
          = ports.map (fun p => BROADCAST_ADDR ++ ":" ++ toString p) := by
  induction ports with
  | nil => intro k; simp [sendLoop, sendDests, sendsOfTrace]
  | cons p rest ih =>
    intro k
    refine ⟨(ih (k + 1)).1, ?_⟩
    show sendDests (Event.send dmsg (BROADCAST_ADDR ++ ":" ++ toString p)
        :: (sendLoop (fun _ => false) dmsg rest (k + 1)).2)
      = List.map (fun p => BROADCAST_ADDR ++ ":" ++ toString p) (p :: rest)
    rw [sendDests_cons_send, (ih (k + 1)).2, List.map_cons]

/-! ## Concrete values for witnesses -/

/-- Local address of node X in the spec's transitive-gossip scenario. -/
def addrX : SocketAddr := ⟨"10.0.0.1:9487", by decide⟩

/-- Address of peer P (alice). -/
def addrP : SocketAddr := ⟨"10.0.0.2:9487", by decide⟩

/-- Address of peer Q (bob). -/
def addrQ : SocketAddr := ⟨"10.0.0.3:9487", by decide⟩

/-- Address of the joining node Y. -/
def addrY : SocketAddr := ⟨"10.0.0.9:9487", by decide⟩

/-! ## Claims -/

/-- Claim C1: for every inbound Discovery message whose sender_addr is
present and parses, handle_discovery_message registers the sender via
add_or_update_peer(sender_addr, sender_name) under the registry guard and
then sends a Discovery reply built from the local username and local
address unicast to the sender's address string. -/
theorem claim_C1 (fails : Nat → Bool) (msg : Message) (reg : List Peer)
    (username : String) (la : SocketAddr) (now : Nat) (s : String)
    (a : SocketAddr) (hmsg : msg.sender_addr = some s)
    (hparse : SocketAddr.fromStr s = some a) :
    (handle_discovery_message fails msg reg username la now).reg
        = add_or_update_peer now a msg.sender reg
      ∧ ∃ tl, (handle_discovery_message fails msg reg username la now).trace
        = Event.lock :: Event.send (Message.new_discovery username la) s :: tl := by
  cases hf0 : fails 0 with
  | false =>
    rw [hdm_eq msg reg username la now hmsg hparse hf0]
    exact ⟨rfl, _, rfl⟩
  | true =>
    rw [hdm_eq_fail0 msg reg username la now hmsg hparse hf0]
    exact ⟨rfl, _, rfl⟩

theorem claim_C1_witness :
    (handle_discovery_message (fun _ => false)
        ⟨MessageKind.discovery, "yvonne", "", some "10.0.0.9:9487"⟩
        [] "xavier" addrX 7).reg
        = add_or_update_peer 7 addrY "yvonne" []
      ∧ ∃ tl, (handle_discovery_message (fun _ => false)
        ⟨MessageKind.discovery, "yvonne", "", some "10.0.0.9:9487"⟩
        [] "xavier" addrX 7).trace
        = Event.lock :: Event.send (Message.new_discovery "xavier" addrX)
            "10.0.0.9:9487" :: tl :=
  claim_C1 (fun _ => false)
    ⟨MessageKind.discovery, "yvonne", "", some "10.0.0.9:9487"⟩
    [] "xavier" addrX 7 "10.0.0.9:9487" addrY rfl (by decide)

/-- Claim C10: an inbound Discovery message with no sender_addr, or one
whose sender_addr does not parse, makes handle_discovery_message return
success with no registry mutation and no trace events (no reply, no
PeerList, no guard acquisition). -/
theorem claim_C10 (fails : Nat → Bool) (msg : Message) (reg : List Peer)
    (username : String) (la : SocketAddr) (now : Nat)
    (h : ∀ s, msg.sender_addr = some s → SocketAddr.fromStr s = none) :
    handle_discovery_message fails msg reg username la now
      = ⟨true, reg, []⟩ := by
  cases hmsg : msg.sender_addr with
  | none => simp [handle_discovery_message, hmsg]
  | some s => simp [handle_discovery_message, hmsg, h s hmsg]

theorem claim_C10_witness :
    handle_discovery_message (fun _ => false)
        ⟨MessageKind.discovery, "eve", "", none⟩ [] "xavier" addrX 7
      = ⟨true, [], []⟩ :=
  claim_C10 (fun _ => false) ⟨MessageKind.discovery, "eve", "", none⟩
    [] "xavier" addrX 7 (fun s hs => nomatch hs)

/-- Claim C2: for every inbound Discovery message with parseable
sender_addr (and no send failure), after the Discovery reply a PeerList
message is sent unicast to the sender whose content lists the
string-encoded address of every peer of the registry snapshot; in
particular every peer registered before the message arrived appears. -/
theorem claim_C2 (msg : Message) (reg : List Peer) (username : String)
    (la : SocketAddr) (now : Nat) (s : String) (a : SocketAddr)
    (hmsg : msg.sender_addr = some s)
    (hparse : SocketAddr.fromStr s = some a) :
    ∃ peer_addrs,
      (handle_discovery_message (fun _ => false) msg reg username la now).sends
        = [(Message.new_discovery username la, s),
           (Message.new_peer_list username peer_addrs la, s)]
      ∧ (∀ p ∈ get_peers (add_or_update_peer now a msg.sender reg),
          p.addr.toStr ∈ peer_addrs)
      ∧ (∀ p ∈ reg, p.addr.toStr ∈ peer_addrs) := by
  refine ⟨(add_or_update_peer now a msg.sender reg).map (fun p => p.addr.toStr),
    ?_, ?_, ?_⟩
  · rw [HandlerOut.sends, hdm_eq msg reg username la now hmsg hparse rfl]
    simp [sendsOfTrace]
  · intro p hp
    exact List.mem_map_of_mem _ hp
  · intro p hp
    rcases mem_add_of_mem now a msg.sender hp with ⟨q, hq, hqa⟩
    exact List.mem_map.mpr ⟨q, hq, by rw [hqa]⟩

theorem claim_C2_witness :
    ∃ peer_addrs,
      (handle_discovery_message (fun _ => false)
          ⟨MessageKind.discovery, "yvonne", "", some "10.0.0.9:9487"⟩
          [⟨addrP, "alice", 1⟩, ⟨addrQ, "bob", 2⟩] "xavier" addrX 7).sends
        = [(Message.new_discovery "xavier" addrX, "10.0.0.9:9487"),
           (Message.new_peer_list "xavier" peer_addrs addrX, "10.0.0.9:9487")]
      ∧ (∀ p ∈ get_peers (add_or_update_peer 7 addrY "yvonne"
            [⟨addrP, "alice", 1⟩, ⟨addrQ, "bob", 2⟩]),
          p.addr.toStr ∈ peer_addrs)
      ∧ (∀ p ∈ ([⟨addrP, "alice", 1⟩, ⟨addrQ, "bob", 2⟩] : List Peer),
          p.addr.toStr ∈ peer_addrs) :=
  claim_C2 ⟨MessageKind.discovery, "yvonne", "", some "10.0.0.9:9487"⟩
    [⟨addrP, "alice", 1⟩, ⟨addrQ, "bob", 2⟩] "xavier" addrX 7
    "10.0.0.9:9487" addrY rfl (by decide)

/-- Claim C9: for every inbound Discovery message with parseable
sender_addr (and no send failure), the registry snapshot taken after the
sender was added is never empty, the follow-up PeerList is always sent,
and the sent list contains the sender's own address. -/
theorem claim_C9 (msg : Message) (reg : List Peer) (username : String)
    (la : SocketAddr) (now : Nat) (s : String) (a : SocketAddr)
    (hmsg : msg.sender_addr = some s)
    (hparse : SocketAddr.fromStr s = some a) :
    (get_peers (add_or_update_peer now a msg.sender reg)).isEmpty = false
    ∧ ∃ peer_addrs,
      (handle_discovery_message (fun _ => false) msg reg username la now).sends
        = [(Message.new_discovery username la, s),
           (Message.new_peer_list username peer_addrs la, s)]
      ∧ a.toStr ∈ peer_addrs := by
  refine ⟨add_ne_nil now a msg.sender reg,
    (add_or_update_peer now a msg.sender reg).map (fun p => p.addr.toStr),
    ?_, ?_⟩
  · rw [HandlerOut.sends, hdm_eq msg reg username la now hmsg hparse rfl]
    simp [sendsOfTrace]
  · rcases self_mem_add now a msg.sender reg with ⟨q, hq, hqa⟩
    exact List.mem_map.mpr ⟨q, hq, by rw [hqa]⟩

theorem claim_C9_witness :
    (get_peers (add_or_update_peer 7 addrY "yvonne" [])).isEmpty = false
    ∧ ∃ peer_addrs,
      (handle_discovery_message (fun _ => false)
          ⟨MessageKind.discovery, "yvonne", "", some "10.0.0.9:9487"⟩
          [] "xavier" addrX 7).sends
        = [(Message.new_discovery "xavier" addrX, "10.0.0.9:9487"),
           (Message.new_peer_list "xavier" peer_addrs addrX, "10.0.0.9:9487")]
      ∧ addrY.toStr ∈ peer_addrs :=
  claim_C9 ⟨MessageKind.discovery, "yvonne", "", some "10.0.0.9:9487"⟩
    [] "xavier" addrX 7 "10.0.0.9:9487" addrY rfl (by decide)

/-- Claim C6: PeerList entries that are empty or do not parse as socket
addresses are silently skipped — a message all of whose entries are such
(in particular one with empty content) leaves the registry unchanged,
sends nothing, and returns success. -/
theorem claim_C6 (fails : Nat → Bool) (msg : Message) (reg : List Peer)
    (username : String) (la : SocketAddr) (now : Nat)
    (h : ∀ s ∈ splitComma msg.content, SocketAddr.fromStr s = none) :
    (handle_peer_list_message fails msg reg username la now).ok = true
    ∧ (handle_peer_list_message fails msg reg username la now).reg = reg
    ∧ (handle_peer_list_message fails msg reg username la now).sends = [] := by
  have hloop := loop_all_skip fails username la now (splitComma msg.content) h reg 0 false
  refine ⟨?_, ?_, ?_⟩
  · rw [hplm_ok, hloop]
  · rw [hplm_reg, hloop]
  · rw [hplm_sends, hloop]; rfl

theorem claim_C6_witness :
    (handle_peer_list_message (fun _ => false)
        ⟨MessageKind.peerList, "mallory", "", some "10.0.0.9:9487"⟩
        [⟨addrP, "alice", 1⟩] "xavier" addrX 7).ok = true
    ∧ (handle_peer_list_message (fun _ => false)
        ⟨MessageKind.peerList, "mallory", "", some "10.0.0.9:9487"⟩
        [⟨addrP, "alice", 1⟩] "xavier" addrX 7).reg = [⟨addrP, "alice", 1⟩]
    ∧ (handle_peer_list_message (fun _ => false)
        ⟨MessageKind.peerList, "mallory", "", some "10.0.0.9:9487"⟩
        [⟨addrP, "alice", 1⟩] "xavier" addrX 7).sends = [] :=
  claim_C6 (fun _ => false)
    ⟨MessageKind.peerList, "mallory", "", some "10.0.0.9:9487"⟩
    [⟨addrP, "alice", 1⟩] "xavier" addrX 7 (by decide)

/-- Claim C3: (no send failure) every PeerList entry that parses, is not
the local address and is unknown to the registry gets registered with its
address string as placeholder display name and receives one unicast
Discovery message; for known addresses the stored name is untouched and no
message is ever sent to them; and every send of the handler is a Discovery
message built from the local username, targeted at an address that was
unknown when the message arrived. -/
theorem claim_C3 (msg : Message) (reg : List Peer) (username : String)
    (la : SocketAddr) (now : Nat) :
    (∀ s a, s ∈ splitComma msg.content → SocketAddr.fromStr s = some a →
      ¬ a = la → regLookup reg a = none →
      regLookup (handle_peer_list_message (fun _ => false) msg reg username la now).reg a
          = some (a.toStr, now)
        ∧ (Message.new_discovery username la, a.toStr) ∈
            (handle_peer_list_message (fun _ => false) msg reg username la now).sends)
    ∧ (∀ a n t, regLookup reg a = some (n, t) →
        (∃ t2, regLookup
            (handle_peer_list_message (fun _ => false) msg reg username la now).reg a
          = some (n, t2))
        ∧ ∀ m : Message, ¬ (m, a.toStr) ∈
            (handle_peer_list_message (fun _ => false) msg reg username la now).sends)
    ∧ (∀ m d, (m, d) ∈
          (handle_peer_list_message (fun _ => false) msg reg username la now).sends →
        m = Message.new_discovery username la
        ∧ ∃ b : SocketAddr, d = b.toStr ∧ ¬ b = la ∧ regLookup reg b = none) := by
  refine ⟨?_, ?_, ?_⟩
  · intro s a hs hparse hala hnone
    constructor
    · rw [hplm_reg, loop_lookup]
      have hhit : hitsB la (splitComma msg.content) a = true := by
        unfold hitsB
        refine (Bool.and_eq_true _ _).mpr ⟨by simpa using hala, ?_⟩
        exact List.any_eq_true.mpr ⟨s, hs, by simp [hparse]⟩
      rw [hhit, if_pos rfl, hnone]
      rfl
    · rw [hplm_sends]
      exact loop_send_new username la now (splitComma msg.content) reg 0 false
        s a hs hparse hala hnone
  · intro a n t hsome
    constructor
    · rw [hplm_reg, loop_lookup]
      by_cases hhit : hitsB la (splitComma msg.content) a = true
      · rw [hhit, if_pos rfl, hsome]
        exact ⟨now, rfl⟩
      · rw [Bool.not_eq_true] at hhit
        rw [hhit]
        exact ⟨t, by simp [hsome]⟩
    · intro m hmem
      rw [hplm_sends] at hmem
      rcases loop_sends_characterize (fun _ => false) username la now
          (splitComma msg.content) reg 0 false m a.toStr hmem
        with ⟨b, _, _, hbnone, hd, _⟩
      have hba : b = a := SocketAddr.toStr_injective hd.symm
      rw [hba] at hbnone
      rw [hbnone] at hsome
      cases hsome
  · intro m d hmem
    rw [hplm_sends] at hmem
    rcases loop_sends_characterize (fun _ => false) username la now
        (splitComma msg.content) reg 0 false m d hmem
      with ⟨b, _, hbla, hbnone, hd, hm⟩
    exact ⟨hm, b, hd, hbla, hbnone⟩

theorem claim_C3_witness :
    regLookup (handle_peer_list_message (fun _ => false)
        ⟨MessageKind.peerList, "xavier", "10.0.0.2:9487,10.0.0.3:9487",
          some "10.0.0.1:9487"⟩ [] "yvonne" addrY 9).reg addrP
      = some (addrP.toStr, 9)
    ∧ (Message.new_discovery "yvonne" addrY, addrP.toStr) ∈
        (handle_peer_list_message (fun _ => false)
          ⟨MessageKind.peerList, "xavier", "10.0.0.2:9487,10.0.0.3:9487",
            some "10.0.0.1:9487"⟩ [] "yvonne" addrY 9).sends :=
  (claim_C3 ⟨MessageKind.peerList, "xavier", "10.0.0.2:9487,10.0.0.3:9487",
      some "10.0.0.1:9487"⟩ [] "yvonne" addrY 9).1
    "10.0.0.2:9487" addrP (by decide) (by decide) (by decide) (by decide)

/-- Claim C4: processing a PeerList message never creates or updates a
registry entry for the local node's own address and never sends to the
local address — entries equal to local_addr are skipped before any
registry access, so the local slot of the registry is untouched and every
send destination differs from the local address string. -/
theorem claim_C4 (fails : Nat → Bool) (msg : Message) (reg : List Peer)
    (username : String) (la : SocketAddr) (now : Nat) :
    regLookup (handle_peer_list_message fails msg reg username la now).reg la
        = regLookup reg la
    ∧ ∀ m d, (m, d) ∈ (handle_peer_list_message fails msg reg username la now).sends →
        ¬ d = la.toStr := by
  constructor
  · rw [hplm_reg]
    exact loop_local_lookup fails username la now (splitComma msg.content) reg 0 false
  · intro m d hmem hd
    rw [hplm_sends] at hmem
    rcases loop_sends_characterize fails username la now
        (splitComma msg.content) reg 0 false m d hmem
      with ⟨b, _, hbla, _, hdb, _⟩
    exact hbla (SocketAddr.toStr_injective (hdb.symm.trans hd))

theorem claim_C4_witness :
    regLookup (handle_peer_list_message (fun _ => false)
        ⟨MessageKind.peerList, "xavier", "10.0.0.9:9487,10.0.0.2:9487",
          some "10.0.0.1:9487"⟩ [] "yvonne" addrY 9).reg addrY
      = regLookup [] addrY :=
  (claim_C4 (fun _ => false)
    ⟨MessageKind.peerList, "xavier", "10.0.0.9:9487,10.0.0.2:9487",
      some "10.0.0.1:9487"⟩ [] "yvonne" addrY 9).1

/-- Claim C8: the order of entries in a PeerList message is irrelevant to
the resulting registry state — for any two PeerList messages whose
comma-split contents are permutations of each other (and no send
failures), processing them from the same registry yields registries with
identical contents at every address. -/
theorem claim_C8 (m1 m2 : Message) (reg : List Peer) (username : String)
    (la : SocketAddr) (now : Nat)
    (hperm : List.Perm (splitComma m1.content) (splitComma m2.content))
    (a : SocketAddr) :
    regLookup (handle_peer_list_message (fun _ => false) m1 reg username la now).reg a
      = regLookup (handle_peer_list_message (fun _ => false) m2 reg username la now).reg a := by
  rw [hplm_reg, hplm_reg, loop_lookup, loop_lookup, hitsB_perm hperm]

theorem claim_C8_witness :
    regLookup (handle_peer_list_message (fun _ => false)
        ⟨MessageKind.peerList, "x", "10.0.0.2:9487,10.0.0.3:9487",
          some "10.0.0.1:9487"⟩ [] "yvonne" addrY 9).reg addrP
      = regLookup (handle_peer_list_message (fun _ => false)
        ⟨MessageKind.peerList, "x", "10.0.0.3:9487,10.0.0.2:9487",
          some "10.0.0.1:9487"⟩ [] "yvonne" addrY 9).reg addrP :=
  claim_C8 ⟨MessageKind.peerList, "x", "10.0.0.2:9487,10.0.0.3:9487",
      some "10.0.0.1:9487"⟩
    ⟨MessageKind.peerList, "x", "10.0.0.3:9487,10.0.0.2:9487",
      some "10.0.0.1:9487"⟩
    [] "yvonne" addrY 9 (by decide) addrP

/-- Claim C5 counterexample: with configured broadcast ports 9487 and 8888
and a transport failure on the first send, the announce round never
attempts the second destination `255.255.255.255:8888` — the error of one
destination aborts the rest of the round, refuting the claim that the
round always attempts every destination. -/
theorem claim_C5_counterexample :
    ¬ "255.255.255.255:8888" ∈
      sendDests (send_discovery_message (fun k => k == 0) "user" addrX
        [9487, 8888]).2 := by decide

/-- Claim C5 (amended): when no send fails, an announce round attempts
every configured destination and reports success; but a send failure
aborts the remainder of the round — with ports [9487, 8888] and the first
send failing, only `255.255.255.255:9487` is attempted and the round
returns an error, and a send failure while processing a PeerList message
likewise returns an error with the remaining entries unprocessed
(the entry `10.0.0.3:9487` after the failing one is never registered and
never sent to).  The periodic task of `start_discovery` merely logs such
an error and continues with later rounds. -/
theorem claim_C5_amended :
    (∀ (username : String) (la : SocketAddr) (ports : List Nat),
      (send_discovery_message (fun _ => false) username la ports).1 = true
      ∧ sendDests (send_discovery_message (fun _ => false) username la ports).2
          = ports.map (fun p => BROADCAST_ADDR ++ ":" ++ toString p))
    ∧ (send_discovery_message (fun k => k == 0) "user" addrX [9487, 8888]).2
        = [Event.send (Message.new_discovery "user" addrX) "255.255.255.255:9487"]
    ∧ (send_discovery_message (fun k => k == 0) "user" addrX [9487, 8888]).1 = false
    ∧ (handle_peer_list_message (fun k => k == 0)
        ⟨MessageKind.peerList, "x", "10.0.0.2:9487,10.0.0.3:9487",
          some "10.0.0.1:9487"⟩ [] "user" addrX 3).ok = false
    ∧ regLookup (handle_peer_list_message (fun k => k == 0)
        ⟨MessageKind.peerList, "x", "10.0.0.2:9487,10.0.0.3:9487",
          some "10.0.0.1:9487"⟩ [] "user" addrX 3).reg addrQ = none
    ∧ (handle_peer_list_message (fun k => k == 0)
        ⟨MessageKind.peerList, "x", "10.0.0.2:9487,10.0.0.3:9487",
          some "10.0.0.1:9487"⟩ [] "user" addrX 3).sends
        = [(Message.new_discovery "user" addrX, "10.0.0.2:9487")] := by
  refine ⟨fun username la ports => sendLoop_ok (Message.new_discovery username la) ports 0,
    ?_, ?_, ?_, ?_, ?_⟩ <;> decide

/-- Claim C7 counterexample: at a concrete Discovery message and at a
concrete PeerList message, the handlers perform network sends while the
registry guard is held (the guard acquired before `add_or_update_peer` is
dropped only at scope exit, after the sends), refuting the claim that the
lock is always released before any send. -/
theorem claim_C7_counterexample :
    sendWhileLocked (handle_discovery_message (fun _ => false)
        ⟨MessageKind.discovery, "yvonne", "", some "10.0.0.9:9487"⟩
        [] "xavier" addrX 7).trace = true
    ∧ sendWhileLocked (handle_peer_list_message (fun _ => false)
        ⟨MessageKind.peerList, "xavier", "10.0.0.2:9487", some "10.0.0.1:9487"⟩
        [] "yvonne" addrY 9).trace = true := by decide

/-- Claim C7 (amended): in both handlers the registry guard is acquired
before the registry access and released only at handler exit, after the
network sends — every handler trace is either empty (no guard taken) or
one lock, then only send events, then one unlock, so all sends happen
under the guard rather than after its release. -/
theorem claim_C7_amended :
    (∀ (fails : Nat → Bool) (msg : Message) (reg : List Peer)
      (username : String) (la : SocketAddr) (now : Nat),
      (handle_discovery_message fails msg reg username la now).trace = []
      ∨ ∃ mid, (handle_discovery_message fails msg reg username la now).trace
            = Event.lock :: mid ++ [Event.unlock]
          ∧ ∀ e ∈ mid, ∃ m d, e = Event.send m d)
    ∧ (∀ (fails : Nat → Bool) (msg : Message) (reg : List Peer)
      (username : String) (la : SocketAddr) (now : Nat),
      ∃ mid, (handle_peer_list_message fails msg reg username la now).trace
            = Event.lock :: mid ++ [Event.unlock]
          ∧ ∀ e ∈ mid, ∃ m d, e = Event.send m d) := by
  constructor
  · intro fails msg reg username la now
    cases hmsg : msg.sender_addr with
    | none => left; simp [handle_discovery_message, hmsg]
    | some s =>
      cases hparse : SocketAddr.fromStr s with
      | none => left; simp [handle_discovery_message, hmsg, hparse]
      | some addr =>
        right
        cases hf0 : fails 0 with
        | true =>
          refine ⟨[Event.send (Message.new_discovery username la) s], ?_, ?_⟩
          · rw [hdm_eq_fail0 msg reg username la now hmsg hparse hf0]; rfl
          · intro e he
            rcases List.mem_singleton.mp he with rfl
            exact ⟨_, _, rfl⟩
        | false =>
          refine ⟨[Event.send (Message.new_discovery username la) s,
            Event.send (Message.new_peer_list username
              ((add_or_update_peer now addr msg.sender reg).map
                fun p => p.addr.toStr) la) s], ?_, ?_⟩
          · rw [hdm_eq msg reg username la now hmsg hparse hf0]; rfl
          · intro e he
            rcases List.mem_cons.mp he with rfl | he'
            · exact ⟨_, _, rfl⟩
            · rcases List.mem_singleton.mp he' with rfl
              exact ⟨_, _, rfl⟩
  · intro fails msg reg username la now
    refine ⟨(peerListLoop fails username la now (splitComma msg.content)
        reg 0 false).2.2.1, hplm_trace fails msg reg username la now, ?_⟩
    intro e he
    exact loop_events_send fails username la now (splitComma msg.content)
      reg 0 false e he

theorem claim_C7_amended_witness :
    ∃ mid, (handle_peer_list_message (fun _ => false)
        ⟨MessageKind.peerList, "xavier", "10.0.0.2:9487", some "10.0.0.1:9487"⟩
        [] "yvonne" addrY 9).trace
      = Event.lock :: mid ++ [Event.unlock]
      ∧ ∀ e ∈ mid, ∃ m d, e = Event.send m d :=
  claim_C7_amended.2 (fun _ => false)
    ⟨MessageKind.peerList, "xavier", "10.0.0.2:9487", some "10.0.0.1:9487"⟩
    [] "yvonne" addrY 9
